import Mathlib

/-!
Verification development for the line-level diff renderer and
refactor-application workflow of the terraform-automation-bot CLI.

The definitions below are a shallow embedding of the JavaScript source:

* `splitNL` / `splitLines` embed `String.prototype.split("\n")` as used by
  `formatDiff` in `src/index.js` (JavaScript's split of the empty string
  yields `[""]`, a single empty line).
* `DiffLine` is the per-line classification of the diff output; the real
  `formatDiff` emits a colored string, one line per `DiffLine`, with ANSI
  color codes that are presentation-only and omitted here.
* `diffStep` / `runDiffLoop` / `computeDiff` embed the `while` loop of
  `formatDiff` literally: state `(i, j, out)`, guard
  `i < oldLines.length || j < newLines.length`, and the loop body with its
  three emissions.  The loop is run with fuel `|old| + |new|`, which is
  proved sufficient (`runDiffLoop_stops`).
* `diffLines` is the spec-side structured recursion describing the
  positional two-pointer algorithm of spec §4.1; it is proved equal to the
  loop embedding (`computeDiff_eq_diffLines`).
* `refactorFile` embeds `refactorFile` from `src/refactor.js`: the provider
  is a fallible function (`Except`), an empty `content` is falsy in
  JavaScript and takes the error path, and any caught error is converted to
  the `Error during refactoring: ...` marker suggestion.
* `sessLoop` / `analyzeAndRefactor` embed the per-file loop of
  `analyzeAndRefactor` in `src/index.js`: suggestion, diff, push of
  `{file, diff, suggestion}` (before the prompt, with no decision field),
  prompt, optional in-place content overwrite.  The decision collaborator
  is `decide : Nat → Option Bool`; `none` models the prompt throwing, which
  propagates: the loop stops, remaining files are untouched, and the
  report-writing code after the loop is never reached (`Option.none`
  result of `analyzeAndRefactor`).
* `renderReport` embeds the report accumulation
  `report = header; changes.forEach(report += section)`.
-/

/-- Embedding of JavaScript `s.split("\n")` on the character list: the empty
list yields `[""]`, a separator char starts a fresh empty segment. -/
def splitNL : List Char → List String
  | [] => [""]
  | c :: cs =>
    match splitNL cs with
    | [] => [""]
    | h :: t =>
      if c = '\n' then "" :: h :: t
      else String.mk (c :: h.data) :: t

/-- Embedding of `content.split("\n")` from `formatDiff` in `src/index.js`. -/
def splitLines (s : String) : List String :=
  splitNL s.data

/-- One rendered line of the diff: the kind tag carried by the `"  "`, `"- "`
or `"+ "` prefix (and color) in `formatDiff`'s string output. -/
inductive DiffLine where
  | unchanged (text : String)
  | removed (text : String)
  | added (text : String)
deriving DecidableEq, Repr

/-- Loop state of `formatDiff`'s `while` loop: the two cursors `i`, `j` and
the output accumulated so far. -/
structure DiffLoopState where
  i : Nat
  j : Nat
  out : List DiffLine
deriving DecidableEq, Repr

/-- Guard of `formatDiff`'s `while` loop: `i < oldLines.length || j < newLines.length`. -/
abbrev diffGuard (oldLines newLines : List String) (s : DiffLoopState) : Prop :=
  s.i < oldLines.length ∨ s.j < newLines.length

/-- One iteration of `formatDiff`'s loop body, translated clause by clause:
the equality branch emits one unchanged line and advances both cursors;
otherwise the two independent `if`s emit a removed line (advancing `i`) and
an added line (advancing `j`) when the respective cursor is in range. -/
def diffStep (oldLines newLines : List String) (s : DiffLoopState) : DiffLoopState :=
  if s.i < oldLines.length ∧ s.j < newLines.length ∧
      oldLines.getD s.i "" = newLines.getD s.j "" then
    ⟨s.i + 1, s.j + 1, s.out ++ [DiffLine.unchanged (oldLines.getD s.i "")]⟩
  else
    let s₁ :=
      if s.i < oldLines.length then
        ⟨s.i + 1, s.j, s.out ++ [DiffLine.removed (oldLines.getD s.i "")]⟩
      else s
    if s₁.j < newLines.length then
      ⟨s₁.i, s₁.j + 1, s₁.out ++ [DiffLine.added (newLines.getD s₁.j "")]⟩
    else s₁

/-- Fuelled run of `formatDiff`'s `while` loop: iterate `diffStep` while the
guard holds, for at most `fuel` iterations. -/
def runDiffLoop (oldLines newLines : List String) : Nat → DiffLoopState → DiffLoopState
  | 0, s => s
  | fuel + 1, s =>
    if diffGuard oldLines newLines s then
      runDiffLoop oldLines newLines fuel (diffStep oldLines newLines s)
    else s

/-- Diff of two text blobs as the list of classified lines: `formatDiff`'s
loop run from `(0, 0, [])` with fuel `|old| + |new|` (proved sufficient in
`runDiffLoop_stops`).  This is the spec's `computeDiff` contract, read off
the source loop. -/
def computeDiff (oldContent newContent : String) : List DiffLine :=
  let oldLines := splitLines oldContent
  let newLines := splitLines newContent
  (runDiffLoop oldLines newLines (oldLines.length + newLines.length) ⟨0, 0, []⟩).out

/-- Spec-side description of the positional two-pointer algorithm (spec
§4.1), as a structured recursion on the two line lists.  Proved equal to the
source loop in `computeDiff_eq_diffLines`. -/
def diffLines : List String → List String → List DiffLine
  | [], ns => ns.map DiffLine.added
  | o :: os, [] => DiffLine.removed o :: diffLines os []
  | o :: os, n :: ns =>
    if o = n then DiffLine.unchanged o :: diffLines os ns
    else DiffLine.removed o :: DiffLine.added n :: diffLines os ns

/-- Rendering of one `DiffLine` as the text `formatDiff` appends for it
(ANSI color codes omitted): two-space, `"- "` or `"+ "` prefix plus `"\n"`. -/
def renderDiffLine : DiffLine → String
  | DiffLine.unchanged t => "  " ++ t ++ "\n"
  | DiffLine.removed t => "- " ++ t ++ "\n"
  | DiffLine.added t => "+ " ++ t ++ "\n"

/-- The string output of `formatDiff` in `src/index.js`: the concatenation,
in emission order, of the rendered diff lines. -/
def formatDiff (oldContent newContent : String) : String :=
  String.join ((computeDiff oldContent newContent).map renderDiffLine)

/-- Texts of the old-side lines of a diff: unchanged and removed lines,
stripped of their kind tag. -/
def oldSide (ds : List DiffLine) : List String :=
  ds.filterMap fun d =>
    match d with
    | DiffLine.unchanged t => some t
    | DiffLine.removed t => some t
    | DiffLine.added _ => none

/-- Texts of the new-side lines of a diff: unchanged and added lines,
stripped of their kind tag. -/
def newSide (ds : List DiffLine) : List String :=
  ds.filterMap fun d =>
    match d with
    | DiffLine.unchanged t => some t
    | DiffLine.removed _ => none
    | DiffLine.added t => some t

/-- Whether a diff line is a removed line. -/
def isRemovedLine : DiffLine → Bool
  | DiffLine.removed _ => true
  | _ => false

/-- Whether a diff line is an added line. -/
def isAddedLine : DiffLine → Bool
  | DiffLine.added _ => true
  | _ => false

/-- One configuration file under review: `{path, content}` as produced by
`readTfFiles` in `src/utils/files.js`. -/
structure SourceFile where
  path : String
  content : String
deriving DecidableEq, Repr

/-- Return value of `refactorFile` in `src/refactor.js`: the spread file
fields plus the `suggestion` text (the proposed replacement, or an error
marker). -/
structure Suggestion where
  path : String
  content : String
  suggestion : String
deriving DecidableEq, Repr

/-- One element pushed onto `changes` in `analyzeAndRefactor`
(`src/index.js`): `{file, diff, suggestion}`.  The JavaScript object holds a
reference to the mutable file; only its immutable `path` is consulted later
(by the report), so the record stores the path.  No decision field exists. -/
structure ChangeRecord where
  path : String
  diff : String
  suggestion : Suggestion
deriving DecidableEq, Repr

/-- Embedding of `refactorFile` from `src/refactor.js`.  `provider prompt
content` models `askAmazonQ(prompt, content)` as a fallible call.  An empty
`content` is falsy in JavaScript, so `!file.content` throws
`File content is undefined or invalid`; every caught error produces the
suggestion `"Error during refactoring: " ++ message`. -/
def refactorFile (provider : String → String → Except String String)
    (file : SourceFile) (prompt : String) : Suggestion :=
  if file.content = "" then
    ⟨file.path, file.content, "Error during refactoring: File content is undefined or invalid"⟩
  else
    match provider prompt file.content with
    | Except.ok s => ⟨file.path, file.content, s⟩
    | Except.error e => ⟨file.path, file.content, "Error during refactoring: " ++ e⟩

/-- Embedding of the per-file loop of `analyzeAndRefactor` in
`src/index.js`.  `decide k` models the `prompts` call for the `k`-th file:
`some b` is a resolved `{apply: b}`, `none` models the prompt throwing.
Returns the final file list (contents mutated in place on accept), the
`changes` array contents at the moment the loop ends, and whether the loop
was aborted by a thrown prompt.  The record is pushed before the prompt, as
in the source; on an abort the remaining files are returned untouched and
unrecorded. -/
def sessLoop (provider : String → String → Except String String)
    (decide : Nat → Option Bool) (prompt : String) :
    List SourceFile → Nat → List SourceFile × List ChangeRecord × Bool
  | [], _ => ([], [], false)
  | f :: fs, k =>
    let sug := refactorFile provider f prompt
    let d := formatDiff f.content sug.suggestion
    let rcd : ChangeRecord := ⟨f.path, d, sug⟩
    match decide k with
    | none => (f :: fs, [rcd], true)
    | some apply =>
      let f' := if apply then { f with content := sug.suggestion } else f
      let rest := sessLoop provider decide prompt fs (k + 1)
      (f' :: rest.1, rcd :: rest.2.1, rest.2.2)

/-- Embedding of the report accumulation in `analyzeAndRefactor`
(`src/index.js`): header string, then `changes.forEach` appending a `## path`
section followed by the stored diff text and a blank line. -/
def renderReport (records : List ChangeRecord) (timestamp : String) : String :=
  records.foldl (fun acc c => acc ++ "## " ++ c.path ++ "\n\n" ++ c.diff ++ "\n\n")
    ("# Terraform Refactor Report (" ++ timestamp ++ ")\n\n")

/-- Embedding of `analyzeAndRefactor` (`src/index.js`) at the level the
claims need: an empty file list returns early with no report; a session
aborted by a thrown prompt propagates the exception past the report-writing
code (result `none`, no report); otherwise the accumulated records are
rendered into the report document. -/
def analyzeAndRefactor (provider : String → String → Except String String)
    (decide : Nat → Option Bool) (prompt : String)
    (files : List SourceFile) (timestamp : String) : Option String :=
  if files = [] then none
  else
    let r := sessLoop provider decide prompt files 0
    if r.2.2 then none else some (renderReport r.2.1 timestamp)


theorem splitNL_ne_nil : ∀ cs : List Char, splitNL cs ≠ []
  | [] => by simp [splitNL]
  | c :: cs => by
    simp only [splitNL]
    match h : splitNL cs with
    | [] => simp
    | x :: xs => by_cases hc : c = '\n' <;> simp [hc]

theorem splitLines_ne_nil (s : String) : splitLines s ≠ [] :=
  splitNL_ne_nil s.data

theorem diffLines_nil_right : ∀ l : List String, diffLines l [] = l.map DiffLine.removed
  | [] => by simp [diffLines]
  | o :: os => by simp [diffLines, diffLines_nil_right os]

theorem diffLines_self : ∀ l : List String, diffLines l l = l.map DiffLine.unchanged
  | [] => by simp [diffLines]
  | o :: os => by simp [diffLines, diffLines_self os]

theorem diffStep_eq_unchanged (oldLines newLines : List String) (s : DiffLoopState)
    (hi : s.i < oldLines.length) (hj : s.j < newLines.length)
    (he : oldLines[s.i] = newLines[s.j]) :
    diffStep oldLines newLines s =
      ⟨s.i + 1, s.j + 1, s.out ++ [DiffLine.unchanged oldLines[s.i]]⟩ := by
  have hgd : oldLines.getD s.i "" = oldLines[s.i] := List.getD_eq_getElem _ _ hi
  have hgd' : newLines.getD s.j "" = newLines[s.j] := List.getD_eq_getElem _ _ hj
  rw [diffStep, if_pos ⟨hi, hj, by rw [hgd, hgd', he]⟩, hgd]

theorem diffStep_eq_both (oldLines newLines : List String) (s : DiffLoopState)
    (hi : s.i < oldLines.length) (hj : s.j < newLines.length)
    (he : oldLines[s.i] ≠ newLines[s.j]) :
    diffStep oldLines newLines s =
      ⟨s.i + 1, s.j + 1,
        s.out ++ [DiffLine.removed oldLines[s.i], DiffLine.added newLines[s.j]]⟩ := by
  have hgd : oldLines.getD s.i "" = oldLines[s.i] := List.getD_eq_getElem _ _ hi
  have hgd' : newLines.getD s.j "" = newLines[s.j] := List.getD_eq_getElem _ _ hj
  rw [diffStep, if_neg (fun hcon => he (by rw [← hgd, ← hgd']; exact hcon.2.2))]
  simp only [if_pos hi, hgd, hgd']
  rw [if_pos hj]
  simp

theorem diffStep_eq_removed (oldLines newLines : List String) (s : DiffLoopState)
    (hi : s.i < oldLines.length) (hj : ¬ s.j < newLines.length) :
    diffStep oldLines newLines s =
      ⟨s.i + 1, s.j, s.out ++ [DiffLine.removed oldLines[s.i]]⟩ := by
  have hgd : oldLines.getD s.i "" = oldLines[s.i] := List.getD_eq_getElem _ _ hi
  rw [diffStep, if_neg (fun hcon => hj hcon.2.1)]
  simp only [if_pos hi, hgd]
  rw [if_neg hj]

theorem diffStep_eq_added (oldLines newLines : List String) (s : DiffLoopState)
    (hi : ¬ s.i < oldLines.length) (hj : s.j < newLines.length) :
    diffStep oldLines newLines s =
      ⟨s.i, s.j + 1, s.out ++ [DiffLine.added newLines[s.j]]⟩ := by
  have hgd' : newLines.getD s.j "" = newLines[s.j] := List.getD_eq_getElem _ _ hj
  rw [diffStep, if_neg (fun hcon => hi hcon.1)]
  simp only [if_neg hi, hgd']
  rw [if_pos hj]

theorem diffStep_advances (oldLines newLines : List String) (s : DiffLoopState)
    (hg : s.i < oldLines.length ∨ s.j < newLines.length) :
    s.i + s.j < (diffStep oldLines newLines s).i + (diffStep oldLines newLines s).j ∧
      oldLines.length - (diffStep oldLines newLines s).i +
        (newLines.length - (diffStep oldLines newLines s).j) <
        oldLines.length - s.i + (newLines.length - s.j) := by
  by_cases hi : s.i < oldLines.length <;> by_cases hj : s.j < newLines.length
  · by_cases he : oldLines[s.i] = newLines[s.j]
    · rw [diffStep_eq_unchanged oldLines newLines s hi hj he]
      exact ⟨by show s.i + s.j < s.i + 1 + (s.j + 1); omega,
        by show _ - (s.i + 1) + (_ - (s.j + 1)) < _; omega⟩
    · rw [diffStep_eq_both oldLines newLines s hi hj he]
      exact ⟨by show s.i + s.j < s.i + 1 + (s.j + 1); omega,
        by show _ - (s.i + 1) + (_ - (s.j + 1)) < _; omega⟩
  · rw [diffStep_eq_removed oldLines newLines s hi hj]
    exact ⟨by show s.i + s.j < s.i + 1 + s.j; omega,
      by show _ - (s.i + 1) + (_ - s.j) < _; omega⟩
  · rw [diffStep_eq_added oldLines newLines s hi hj]
    exact ⟨by show s.i + s.j < s.i + (s.j + 1); omega,
      by show _ - s.i + (_ - (s.j + 1)) < _; omega⟩
  · exact absurd hg (by simp [hi, hj])

theorem runDiffLoop_out_eq (oldLines newLines : List String) (fuel : Nat) :
    ∀ s : DiffLoopState,
      oldLines.length - s.i + (newLines.length - s.j) ≤ fuel →
      (runDiffLoop oldLines newLines fuel s).out =
        s.out ++ diffLines (oldLines.drop s.i) (newLines.drop s.j) := by
  induction fuel with
  | zero =>
    intro s h
    have hi : oldLines.length ≤ s.i := by omega
    have hj : newLines.length ≤ s.j := by omega
    simp [runDiffLoop, List.drop_eq_nil_of_le hi, List.drop_eq_nil_of_le hj, diffLines]
  | succ fuel ih =>
    intro s h
    by_cases hg : diffGuard oldLines newLines s
    · rw [runDiffLoop, if_pos hg]
      by_cases hi : s.i < oldLines.length <;> by_cases hj : s.j < newLines.length
      · by_cases he : oldLines[s.i] = newLines[s.j]
        · rw [diffStep_eq_unchanged oldLines newLines s hi hj he,
            ih ⟨s.i + 1, s.j + 1, s.out ++ [DiffLine.unchanged oldLines[s.i]]⟩
              (by show _ - (s.i + 1) + (_ - (s.j + 1)) ≤ fuel; omega)]
          rw [← List.getElem_cons_drop oldLines s.i hi, ← List.getElem_cons_drop newLines s.j hj]
          simp [diffLines, he]
        · rw [diffStep_eq_both oldLines newLines s hi hj he,
            ih ⟨s.i + 1, s.j + 1,
                s.out ++ [DiffLine.removed oldLines[s.i], DiffLine.added newLines[s.j]]⟩
              (by show _ - (s.i + 1) + (_ - (s.j + 1)) ≤ fuel; omega)]
          rw [← List.getElem_cons_drop oldLines s.i hi, ← List.getElem_cons_drop newLines s.j hj]
          simp [diffLines, he]
      · rw [diffStep_eq_removed oldLines newLines s hi hj,
          ih ⟨s.i + 1, s.j, s.out ++ [DiffLine.removed oldLines[s.i]]⟩
            (by show _ - (s.i + 1) + (_ - s.j) ≤ fuel; omega)]
        rw [← List.getElem_cons_drop oldLines s.i hi,
          List.drop_eq_nil_of_le (show newLines.length ≤ s.j by omega)]
        simp [diffLines, diffLines_nil_right]
      · rw [diffStep_eq_added oldLines newLines s hi hj,
          ih ⟨s.i, s.j + 1, s.out ++ [DiffLine.added newLines[s.j]]⟩
            (by show _ - s.i + (_ - (s.j + 1)) ≤ fuel; omega)]
        rw [← List.getElem_cons_drop newLines s.j hj,
          List.drop_eq_nil_of_le (show oldLines.length ≤ s.i by omega)]
        simp only [diffLines, List.map_cons]
        simp
      · exact absurd hg (by simp [hi, hj])
    · rw [runDiffLoop, if_neg hg]
      simp only [diffGuard, not_or, not_lt] at hg
      simp [List.drop_eq_nil_of_le hg.1, List.drop_eq_nil_of_le hg.2, diffLines]

theorem runDiffLoop_stops (oldLines newLines : List String) (fuel : Nat) :
    ∀ s : DiffLoopState,
      oldLines.length - s.i + (newLines.length - s.j) ≤ fuel →
      ¬ diffGuard oldLines newLines (runDiffLoop oldLines newLines fuel s) := by
  induction fuel with
  | zero =>
    intro s h
    simp only [runDiffLoop, diffGuard, not_or, not_lt]
    omega
  | succ fuel ih =>
    intro s h
    by_cases hg : diffGuard oldLines newLines s
    · rw [runDiffLoop, if_pos hg]
      exact ih _ (by have := (diffStep_advances oldLines newLines s hg).2; omega)
    · rw [runDiffLoop, if_neg hg]
      exact hg

theorem computeDiff_eq_diffLines (a b : String) :
    computeDiff a b = diffLines (splitLines a) (splitLines b) := by
  have h := runDiffLoop_out_eq (splitLines a) (splitLines b)
    ((splitLines a).length + (splitLines b).length) ⟨0, 0, []⟩ (by omega)
  simpa [computeDiff] using h

theorem string_foldl_append (l : List String) :
    ∀ init : String,
      l.foldl (fun r s => r ++ s) init = init ++ l.foldl (fun r s => r ++ s) "" := by
  induction l with
  | nil => intro init; simp [String.append_empty]
  | cons a l ih =>
    intro init
    simp only [List.foldl_cons]
    rw [ih (init ++ a), ih ("" ++ a)]
    simp [String.empty_append, String.append_assoc]

theorem string_join_cons (a : String) (l : List String) :
    String.join (a :: l) = a ++ String.join l := by
  simp only [String.join, List.foldl_cons]
  rw [string_foldl_append l ("" ++ a)]
  simp [String.empty_append]

theorem oldSide_map_added (ns : List String) : oldSide (ns.map DiffLine.added) = [] := by
  induction ns with
  | nil => simp [oldSide]
  | cons n ns ih => simp [oldSide, List.filterMap_cons]

theorem newSide_map_added (ns : List String) : newSide (ns.map DiffLine.added) = ns := by
  induction ns with
  | nil => simp [newSide]
  | cons n ns ih => simpa [newSide, List.filterMap_cons] using ih

theorem oldSide_diffLines : ∀ os ns : List String, oldSide (diffLines os ns) = os
  | [], ns => by simpa [diffLines] using oldSide_map_added ns
  | o :: os, [] => by
    simp [diffLines, oldSide, List.filterMap_cons]
    simpa [oldSide] using oldSide_diffLines os []
  | o :: os, n :: ns => by
    by_cases he : o = n
    · simp only [diffLines, if_pos he]
      simp [oldSide, List.filterMap_cons]
      simpa [oldSide] using oldSide_diffLines os ns
    · simp only [diffLines, if_neg he]
      simp [oldSide, List.filterMap_cons]
      simpa [oldSide] using oldSide_diffLines os ns

theorem newSide_diffLines : ∀ os ns : List String, newSide (diffLines os ns) = ns
  | [], ns => by simpa [diffLines] using newSide_map_added ns
  | o :: os, [] => by
    simp [diffLines, newSide, List.filterMap_cons]
    simpa [newSide] using newSide_diffLines os []
  | o :: os, n :: ns => by
    by_cases he : o = n
    · simp only [diffLines, if_pos he]
      simp [newSide, List.filterMap_cons, he]
      simpa [newSide] using newSide_diffLines os ns
    · simp only [diffLines, if_neg he]
      simp [newSide, List.filterMap_cons]
      simpa [newSide] using newSide_diffLines os ns

theorem renderReport_foldl (l : List ChangeRecord) :
    ∀ init : String,
      l.foldl (fun acc c => acc ++ "## " ++ c.path ++ "\n\n" ++ c.diff ++ "\n\n") init =
        init ++ String.join (l.map fun c => "## " ++ c.path ++ "\n\n" ++ c.diff ++ "\n\n") := by
  induction l with
  | nil => intro init; simp [String.join, String.append_empty]
  | cons c cs ih =>
    intro init
    simp only [List.foldl_cons, List.map_cons]
    rw [ih, string_join_cons]
    simp [String.append_assoc]

theorem sessLoop_cons_none (provider : String → String → Except String String)
    (decide : Nat → Option Bool) (prompt : String) (f : SourceFile)
    (fs : List SourceFile) (k : Nat) (hD : decide k = none) :
    sessLoop provider decide prompt (f :: fs) k =
      (f :: fs,
        [⟨f.path, formatDiff f.content (refactorFile provider f prompt).suggestion,
          refactorFile provider f prompt⟩], true) := by
  simp [sessLoop, hD]

theorem sessLoop_cons_some (provider : String → String → Except String String)
    (decide : Nat → Option Bool) (prompt : String) (f : SourceFile)
    (fs : List SourceFile) (k : Nat) (b : Bool) (hD : decide k = some b) :
    sessLoop provider decide prompt (f :: fs) k =
      ((if b then { f with content := (refactorFile provider f prompt).suggestion } else f) ::
          (sessLoop provider decide prompt fs (k + 1)).1,
        ⟨f.path, formatDiff f.content (refactorFile provider f prompt).suggestion,
          refactorFile provider f prompt⟩ :: (sessLoop provider decide prompt fs (k + 1)).2.1,
        (sessLoop provider decide prompt fs (k + 1)).2.2) := by
  simp [sessLoop, hD]

theorem sessLoop_no_abort (provider : String → String → Except String String)
    (decide : Nat → Option Bool) (prompt : String) (hD : ∀ m, decide m ≠ none) :
    ∀ (files : List SourceFile) (k : Nat),
      (sessLoop provider decide prompt files k).2.2 = false ∧
      (sessLoop provider decide prompt files k).2.1.map ChangeRecord.path =
        files.map SourceFile.path := by
  intro files
  induction files with
  | nil => intro k; simp [sessLoop]
  | cons f fs ih =>
    intro k
    obtain ⟨b, hb⟩ : ∃ b, decide k = some b := by
      cases h : decide k with
      | none => exact absurd h (hD k)
      | some b => exact ⟨b, rfl⟩
    rw [sessLoop_cons_some provider decide prompt f fs k b hb]
    simpa using ih (k + 1)

/-- Claim C1: `computeDiff` follows the positional two-pointer algorithm —
it equals the structured two-pointer recursion `diffLines`, whose equations
are exactly the algorithm of spec §4.1 (equal in-range lines give one
Unchanged line and advance both cursors; otherwise a Removed line for the
in-range old cursor and an Added line for the in-range new cursor in the
same iteration), and the two concrete scenarios evaluate as stated. -/
theorem computeDiff_two_pointer :
    (∀ a b : String, computeDiff a b = diffLines (splitLines a) (splitLines b)) ∧
    (∀ (o n : String) (os ns : List String),
      diffLines (o :: os) (n :: ns) =
        if o = n then DiffLine.unchanged o :: diffLines os ns
        else DiffLine.removed o :: DiffLine.added n :: diffLines os ns) ∧
    (∀ (o : String) (os : List String),
      diffLines (o :: os) [] = DiffLine.removed o :: diffLines os []) ∧
    (∀ (n : String) (ns : List String),
      diffLines [] (n :: ns) = DiffLine.added n :: diffLines [] ns) ∧
    diffLines [] [] = [] ∧
    computeDiff "a\nb\nc" "a\nx\nc" =
      [DiffLine.unchanged "a", DiffLine.removed "b", DiffLine.added "x",
        DiffLine.unchanged "c"] ∧
    computeDiff "a\nb" "a\nb\nc" =
      [DiffLine.unchanged "a", DiffLine.unchanged "b", DiffLine.added "c"] := by
  refine ⟨computeDiff_eq_diffLines, ?_, ?_, ?_, by simp [diffLines], by decide, by decide⟩
  · intro o n os ns; simp [diffLines]
  · intro o os; simp [diffLines]
  · intro n ns; simp [diffLines]

/-- Claim C2 counterexample: splitting the empty blob yields `[""]` (a
single empty line, exactly as JavaScript `"".split("\n")` does), not an
empty sequence; consequently `computeDiff "a" ""` contains an Added `""`
line, so it does not consist of Removed lines only. -/
theorem computeDiff_empty_new_cex :
    splitLines "" = [""] ∧
    computeDiff "a" "" = [DiffLine.removed "a", DiffLine.added ""] ∧
    (computeDiff "a" "").all isRemovedLine = false := by
  exact ⟨by decide, by decide, by decide⟩

/-- Claim C2 as amended: splitting an empty blob yields the single empty
line `[""]`; hence `computeDiff a ""` is the Removed lines of `a` with one
extra line from the new side — an Unchanged `""` replacing the first
Removed when `a`'s first line is empty, otherwise an Added `""` right after
the first Removed; symmetrically for `computeDiff "" b`. -/
theorem computeDiff_empty_blob_amended (a b l0 m0 : String)
    (ls ms : List String) :
    splitLines "" = [""] ∧
    (splitLines a = l0 :: ls →
      computeDiff a "" =
        if l0 = "" then DiffLine.unchanged "" :: ls.map DiffLine.removed
        else DiffLine.removed l0 :: DiffLine.added "" :: ls.map DiffLine.removed) ∧
    (splitLines b = m0 :: ms →
      computeDiff "" b =
        if m0 = "" then DiffLine.unchanged "" :: ms.map DiffLine.added
        else DiffLine.removed "" :: DiffLine.added m0 :: ms.map DiffLine.added) := by
  refine ⟨by decide, ?_, ?_⟩
  · intro h
    rw [computeDiff_eq_diffLines, h, show splitLines "" = [""] by decide]
    by_cases hl : l0 = ""
    · subst hl
      simp [diffLines, diffLines_nil_right]
    · simp [diffLines, hl, diffLines_nil_right]
  · intro h
    rw [computeDiff_eq_diffLines, h, show splitLines "" = [""] by decide]
    by_cases hm : m0 = ""
    · subst hm
      simp [diffLines]
    · have hm' : ¬ "" = m0 := fun he => hm he.symm
      simp [diffLines, hm', hm]

/-- Claim C2 amended, witness: the amended statement applied at
`a = "a\nb"` and `b = "x"`. -/
theorem computeDiff_empty_blob_amended_w :
    computeDiff "a\nb" "" =
      [DiffLine.removed "a", DiffLine.added "", DiffLine.removed "b"] ∧
    computeDiff "" "x" = [DiffLine.removed "", DiffLine.added "x"] := by
  constructor
  · have h := (computeDiff_empty_blob_amended "a\nb" "x" "a" "x" ["b"] []).2.1 (by decide)
    simpa using h
  · have h := (computeDiff_empty_blob_amended "a\nb" "x" "a" "x" ["b"] []).2.2 (by decide)
    simpa using h

/-- Claim C3: `computeDiff a a` is all-Unchanged, one line per line of `a`,
in order; and after a session step that accepts a suggestion, re-running
`computeDiff` on the overwritten content against the suggestion yields an
all-Unchanged sequence. -/
theorem computeDiff_self_unchanged (a : String)
    (provider : String → String → Except String String) (decide : Nat → Option Bool)
    (prompt : String) (f : SourceFile) (k : Nat) :
    computeDiff a a = (splitLines a).map DiffLine.unchanged ∧
    (decide k = some true →
      (sessLoop provider decide prompt [f] k).1.map
          (fun g => computeDiff g.content (refactorFile provider f prompt).suggestion) =
        [(splitLines (refactorFile provider f prompt).suggestion).map DiffLine.unchanged]) := by
  constructor
  · rw [computeDiff_eq_diffLines, diffLines_self]
  · intro hD
    rw [sessLoop_cons_some provider decide prompt f [] k true hD]
    simp only [List.map_cons, if_pos trivial, sessLoop, List.map_nil, if_true]
    rw [computeDiff_eq_diffLines, diffLines_self]

/-- Claim C3 witness: the statement applied with `a = "q\nr"` and a
concrete one-file accepting session. -/
theorem computeDiff_self_unchanged_w :
    computeDiff "q\nr" "q\nr" = (splitLines "q\nr").map DiffLine.unchanged ∧
    (sessLoop (fun _ _ => Except.ok "z\nw") (fun _ => some true) "p"
        [⟨"t.tf", "body"⟩] 0).1.map
      (fun g => computeDiff g.content
        (refactorFile (fun _ _ => Except.ok "z\nw") ⟨"t.tf", "body"⟩ "p").suggestion) =
      [(splitLines
        (refactorFile (fun _ _ => Except.ok "z\nw") ⟨"t.tf", "body"⟩ "p").suggestion).map
          DiffLine.unchanged] :=
  ⟨(computeDiff_self_unchanged "q\nr" (fun _ _ => Except.ok "z\nw") (fun _ => some true)
      "p" ⟨"t.tf", "body"⟩ 0).1,
    (computeDiff_self_unchanged "q\nr" (fun _ _ => Except.ok "z\nw") (fun _ => some true)
      "p" ⟨"t.tf", "body"⟩ 0).2 rfl⟩

/-- Claim C4: the diff is a consistent interleaving of both inputs — the
unchanged-and-removed lines, stripped of kind tags, are exactly the old
input's line sequence, and the unchanged-and-added lines are exactly the
new input's line sequence. -/
theorem computeDiff_interleaving (a b : String) :
    oldSide (computeDiff a b) = splitLines a ∧
    newSide (computeDiff a b) = splitLines b := by
  rw [computeDiff_eq_diffLines]
  exact ⟨oldSide_diffLines _ _, newSide_diffLines _ _⟩

/-- Claim C5: in a session with no interaction abort, the resulting record
list has exactly one record per input file, in file-processing order,
however many provider calls failed — a provider failure is caught and
converted into the human-readable error-marker suggestion, and the loop
proceeds. -/
theorem session_one_record_per_file (provider : String → String → Except String String)
    (decide : Nat → Option Bool) (prompt : String) (files : List SourceFile) (k : Nat)
    (hD : ∀ m, decide m ≠ none) :
    (sessLoop provider decide prompt files k).2.2 = false ∧
    (sessLoop provider decide prompt files k).2.1.length = files.length ∧
    (sessLoop provider decide prompt files k).2.1.map ChangeRecord.path =
      files.map SourceFile.path ∧
    (∀ (f : SourceFile) (e : String), f.content ≠ "" →
      provider prompt f.content = Except.error e →
      (refactorFile provider f prompt).suggestion = "Error during refactoring: " ++ e) := by
  have h := sessLoop_no_abort provider decide prompt hD files k
  refine ⟨h.1, ?_, h.2, ?_⟩
  · have := congrArg List.length h.2
    simpa using this
  · intro f e hc hp
    simp [refactorFile, hc, hp]

/-- Claim C5 witness: a two-file session whose provider fails on every call
still yields one record per file, in order, carrying the error marker. -/
theorem session_one_record_per_file_w :
    (sessLoop (fun _ _ => Except.error "boom") (fun _ => some false) "p"
        [⟨"a.tf", "x"⟩, ⟨"b.tf", "y"⟩] 0).2.1.map ChangeRecord.path = ["a.tf", "b.tf"] ∧
    (refactorFile (fun _ _ => Except.error "boom") ⟨"a.tf", "x"⟩ "p").suggestion =
      "Error during refactoring: boom" := by
  have h := session_one_record_per_file (fun _ _ => Except.error "boom")
    (fun _ => some false) "p" [⟨"a.tf", "x"⟩, ⟨"b.tf", "y"⟩] 0 (fun m => by simp)
  exact ⟨h.2.2.1, h.2.2.2 ⟨"a.tf", "x"⟩ "boom" (by decide) rfl⟩

/-- Claim C6 counterexample: with a provider that proposes exactly the
original content and a user who skips, the final content equals the
proposed content although the decision was skip — refuting the claimed
`iff` — and with a decision step that aborts, a record has already been
pushed although no decision was ever made — refuting `appended after the
decision`.  (The pushed record also carries no accepted field at all.) -/
theorem session_record_before_decision_cex :
    (sessLoop (fun _ c => Except.ok c) (fun _ => some false) "p"
        [⟨"f.tf", "x"⟩] 0).1.map SourceFile.content = ["x"] ∧
    (refactorFile (fun _ c => Except.ok c) ⟨"f.tf", "x"⟩ "p").suggestion = "x" ∧
    (fun _ => (some false : Option Bool)) 0 = some false ∧
    (sessLoop (fun _ c => Except.ok c) (fun _ => none) "p"
        [⟨"f.tf", "x"⟩] 0).2.1.length = 1 := by
  exact ⟨by decide, by decide, rfl, by decide⟩

/-- Claim C6 as amended: on an accept decision the file's content is
overwritten with the suggestion, on a skip it keeps its original content
(the two coincide when the proposal equals the original, so the claimed
`iff` fails); the ChangeRecord — capturing path, diff and suggestion, but
no decision — is appended before the decision is made, so it is present
even when the decision step aborts. -/
theorem session_record_before_decision_amended
    (provider : String → String → Except String String) (decide : Nat → Option Bool)
    (prompt : String) (f : SourceFile) (fs : List SourceFile) (k : Nat) :
    (∀ b : Bool, decide k = some b →
      (sessLoop provider decide prompt (f :: fs) k).1 =
        (if b then { f with content := (refactorFile provider f prompt).suggestion }
          else f) :: (sessLoop provider decide prompt fs (k + 1)).1 ∧
      (sessLoop provider decide prompt (f :: fs) k).2.1 =
        ⟨f.path, formatDiff f.content (refactorFile provider f prompt).suggestion,
          refactorFile provider f prompt⟩ :: (sessLoop provider decide prompt fs (k + 1)).2.1) ∧
    (decide k = none →
      (sessLoop provider decide prompt (f :: fs) k).2.1 =
        [⟨f.path, formatDiff f.content (refactorFile provider f prompt).suggestion,
          refactorFile provider f prompt⟩]) := by
  constructor
  · intro b hb
    rw [sessLoop_cons_some provider decide prompt f fs k b hb]
    exact ⟨rfl, rfl⟩
  · intro hD
    rw [sessLoop_cons_none provider decide prompt f fs k hD]

/-- Claim C6 amended, witness: an accepting one-file session overwrites the
content, and an aborting one has already pushed its record. -/
theorem session_record_before_decision_amended_w :
    (sessLoop (fun _ _ => Except.ok "new") (fun _ => some true) "p"
        [⟨"f.tf", "old"⟩] 0).1 = [⟨"f.tf", "new"⟩] ∧
    (sessLoop (fun _ _ => Except.ok "new") (fun _ => none) "p"
        [⟨"f.tf", "old"⟩] 0).2.1.length = 1 := by
  constructor
  · have h := (session_record_before_decision_amended (fun _ _ => Except.ok "new")
      (fun _ => some true) "p" ⟨"f.tf", "old"⟩ [] 0).1 true rfl
    rw [h.1]
    decide
  · have h := (session_record_before_decision_amended (fun _ _ => Except.ok "new")
      (fun _ => none) "p" ⟨"f.tf", "old"⟩ [] 0).2 rfl
    rw [h]
    simp

/-- Claim C7 counterexample: a two-file session whose decision step aborts
on the second file has two records accumulated in memory (the abort flag is
set), yet `analyzeAndRefactor` produces no report at all — the records are
not available for reporting, because the thrown prompt propagates past the
report-writing code. -/
theorem session_abort_no_report_cex :
    analyzeAndRefactor (fun _ c => Except.ok (c ++ "!"))
        (fun k => if k = 0 then some true else none) "p"
        [⟨"a.tf", "x"⟩, ⟨"b.tf", "y"⟩] "T" = none ∧
    (sessLoop (fun _ c => Except.ok (c ++ "!"))
        (fun k => if k = 0 then some true else none) "p"
        [⟨"a.tf", "x"⟩, ⟨"b.tf", "y"⟩] 0).2.1.length = 2 ∧
    (sessLoop (fun _ c => Except.ok (c ++ "!"))
        (fun k => if k = 0 then some true else none) "p"
        [⟨"a.tf", "x"⟩, ⟨"b.tf", "y"⟩] 0).2.2 = true := by
  exact ⟨by decide, by decide, by decide⟩

/-- Claim C7 as amended: a decision-collection failure is fatal — the
aborting file's content and all later files are left untouched and produce
no further records, and the failure propagates past the report-writing
step, so no report is produced and the ChangeRecords accumulated before the
abort (including the one already pushed for the aborting file) are not
reported. -/
theorem session_abort_fatal_amended (provider : String → String → Except String String)
    (decide : Nat → Option Bool) (prompt : String) (f : SourceFile)
    (fs : List SourceFile) (k : Nat) (files : List SourceFile) (ts : String) :
    (decide k = none →
      sessLoop provider decide prompt (f :: fs) k =
        (f :: fs,
          [⟨f.path, formatDiff f.content (refactorFile provider f prompt).suggestion,
            refactorFile provider f prompt⟩], true)) ∧
    ((sessLoop provider decide prompt files 0).2.2 = true →
      analyzeAndRefactor provider decide prompt files ts = none) := by
  constructor
  · exact sessLoop_cons_none provider decide prompt f fs k
  · intro hab
    have hne : files ≠ [] := by
      intro h
      rw [h] at hab
      simp [sessLoop] at hab
    simp [analyzeAndRefactor, hne, hab]

/-- Claim C7 amended, witness: the amended statement applied to a concrete
aborting session. -/
theorem session_abort_fatal_amended_w :
    sessLoop (fun _ _ => Except.ok "z") (fun _ => none) "p" [⟨"a.tf", "x"⟩] 0 =
      ([⟨"a.tf", "x"⟩],
        [⟨"a.tf", formatDiff "x" (refactorFile (fun _ _ => Except.ok "z") ⟨"a.tf", "x"⟩ "p").suggestion,
          refactorFile (fun _ _ => Except.ok "z") ⟨"a.tf", "x"⟩ "p"⟩], true) ∧
    analyzeAndRefactor (fun _ _ => Except.ok "z") (fun _ => none) "p"
      [⟨"a.tf", "x"⟩] "T" = none := by
  have h := session_abort_fatal_amended (fun _ _ => Except.ok "z") (fun _ => none) "p"
    ⟨"a.tf", "x"⟩ [] 0 [⟨"a.tf", "x"⟩] "T"
  exact ⟨h.1 rfl, h.2 (by decide)⟩

/-- Claim C8: the `formatDiff` loop ends exactly when both cursors have
reached the end of their line sequences, every iteration with a true guard
advances the cursor sum, and the loop run from `(0, 0)` with fuel
`|old| + |new|` has terminated (its guard is false). -/
theorem computeDiff_loop_terminates (oldLines newLines : List String) :
    (∀ s : DiffLoopState, ¬ diffGuard oldLines newLines s ↔
      oldLines.length ≤ s.i ∧ newLines.length ≤ s.j) ∧
    (∀ s : DiffLoopState, diffGuard oldLines newLines s →
      s.i + s.j < (diffStep oldLines newLines s).i + (diffStep oldLines newLines s).j) ∧
    ¬ diffGuard oldLines newLines
      (runDiffLoop oldLines newLines (oldLines.length + newLines.length) ⟨0, 0, []⟩) := by
  refine ⟨?_, ?_, ?_⟩
  · intro s
    simp [diffGuard, not_or, not_lt]
  · intro s hg
    exact (diffStep_advances oldLines newLines s hg).1
  · exact runDiffLoop_stops oldLines newLines _ ⟨0, 0, []⟩ (by omega)

/-- Claim C8 witness: the progress property applied at a concrete state
with a true guard. -/
theorem computeDiff_loop_terminates_w :
    diffGuard ["a"] ["b"] ⟨0, 0, []⟩ ∧
    (⟨0, 0, []⟩ : DiffLoopState).i + (⟨0, 0, []⟩ : DiffLoopState).j <
      (diffStep ["a"] ["b"] ⟨0, 0, []⟩).i + (diffStep ["a"] ["b"] ⟨0, 0, []⟩).j :=
  ⟨by decide, (computeDiff_loop_terminates ["a"] ["b"]).2.1 ⟨0, 0, []⟩ (by decide)⟩

/-- Claim C9: `renderReport` is a pure function of the record list and
timestamp whose output is exactly the header line containing the timestamp
followed by one `## path` section per record, in input order, each
containing that record's stored diff text. -/
theorem renderReport_header_sections (records : List ChangeRecord) (timestamp : String) :
    renderReport records timestamp =
      "# Terraform Refactor Report (" ++ timestamp ++ ")\n\n" ++
        String.join (records.map fun c => "## " ++ c.path ++ "\n\n" ++ c.diff ++ "\n\n") := by
  simpa [renderReport] using renderReport_foldl records
    ("# Terraform Refactor Report (" ++ timestamp ++ ")\n\n")

/-- Claim C10: a SourceFile whose content is the empty string takes the
provider-failure path of `refactorFile` — for every provider, the returned
suggestion is the error-marker string for invalid content, not a genuine
replacement. -/
theorem refactorFile_empty_content_marker
    (provider : String → String → Except String String) (f : SourceFile)
    (prompt : String) (h : f.content = "") :
    refactorFile provider f prompt =
      ⟨f.path, f.content, "Error during refactoring: File content is undefined or invalid"⟩ := by
  simp [refactorFile, h]

/-- Claim C10 witness: the statement applied to a concrete empty file and a
provider that would have succeeded. -/
theorem refactorFile_empty_content_marker_w :
    (⟨"e.tf", ""⟩ : SourceFile).content = "" ∧
    refactorFile (fun _ c => Except.ok c) ⟨"e.tf", ""⟩ "p" =
      ⟨"e.tf", "", "Error during refactoring: File content is undefined or invalid"⟩ :=
  ⟨rfl, refactorFile_empty_content_marker (fun _ c => Except.ok c) ⟨"e.tf", ""⟩ "p" rfl⟩
